import Mathlib

/-!
Shallow embedding of `src/app/datasets/korean_aihub_sentence_dataset.py`
(class `KoreanTypographyDataset` and its helpers).

Paths are modelled as lists of path segments (`Path`), directory listings as
explicit lists kept in the tree structures below, and the filesystem seen by
`read_image` as a pair of oracle functions (`dec` for PIL decoding, `listing`
for `folder.glob("*")`).  Machine randomness (`np.random.choice`) is modelled
by passing the random draw as an explicit natural number.  Python exceptions
(`AssertionError`, `IndexError`, `ValueError`) are modelled by
`Except String`.
-/

namespace TwinNets

/-- A filesystem path, as its list of segments (`pathlib.Path.parts`). -/
abbrev Path := List String

/-- A decoded raster image: rows of pixels, each pixel a list of channel
values (numpy `H x W x C` layout).  Pixel values are integers (uint8 in the
source); `torch.float32` conversion is exact on that range, so the numeric
cast is omitted from the model. -/
abbrev Image := List (List (List Int))

/-- Does `pat` occur at the head of the character list?  Helper for the
substring test below. -/
def leadMatch : List Char → List Char → Bool
  | [], _ => true
  | _ :: _, [] => false
  | p :: ps, c :: cs => p == c && leadMatch ps cs

/-- Does `pat` occur as a contiguous substring?  Models Python
`pat in s` on strings and the glob pattern `*pat*` on file names. -/
def subMatch (pat : List Char) : List Char → Bool
  | [] => leadMatch pat []
  | c :: cs => leadMatch pat (c :: cs) || subMatch pat cs

/-- Models `"모사" in str(img_tf.parts[-1])`: the traced-sample marker test. -/
def containsTraced (s : String) : Bool :=
  subMatch "모사".data s.data

/-- A file name matches the canonical glob pattern `*_0150_x*`. -/
def hasPattern (f : String) : Bool :=
  subMatch "_0150_x".data f.data

/-- A variant sub-subfolder on the image side: its name and the names of the
files it contains, in directory-listing (`glob`) order. -/
structure SubFolder where
  name : String
  files : List String
deriving DecidableEq, Repr

/-- A writer-attempt folder on the image side (`img_tf`). -/
structure AttemptFolder where
  name : String
  subs : List SubFolder
deriving DecidableEq, Repr

/-- A sentence-group folder on the image side (`img_sen`). -/
structure SentenceFolder where
  name : String
  attempts : List AttemptFolder
deriving DecidableEq, Repr

/-- A writer-attempt folder on the label side (`lab_tf`): its name, the names
of its sub-subfolders, and the `j["person"]["id"]` value stored in the
`labels(sent1).json` file of its first sub-subfolder (the only label content
the source reads). -/
structure LabAttempt where
  name : String
  subs : List String
  writerId : String
deriving DecidableEq, Repr

/-- A sentence-group folder on the label side (`lab_sen`). -/
structure LabSentence where
  name : String
  attempts : List LabAttempt
deriving DecidableEq, Repr

/-- One of the `Training` / `Validation` subtrees: the sentence folders of the
image branch (`TS_images` / `VS_images`) and of the label branch, in
directory-listing order. -/
structure Split where
  imgSents : List SentenceFolder
  labSents : List LabSentence
deriving DecidableEq, Repr

/-- The corpus root directory. -/
structure RootDir where
  training : Split
  validation : Split
deriving DecidableEq, Repr

/-- The per-sub-subfolder loop body of `read_paths`
(`for img_pos, lab_pos in zip(img_tf, lab_tf)`): select the single file
matching `*_0150_x*` (`list(...)[0]` raises `IndexError` when there is no
match), assert that the writer segment (`parts[-3]`) of the selected image
path equals that of the label path, and collect the image path.  `lab_pos` is
unused by the loop body in the source; since the zipped lists have equal
length at this point, the loop iterates once per image sub-subfolder. -/
def collectSubPaths (senName tfName labTfName : String) :
    List SubFolder → Except String (List Path)
  | [] => .ok []
  | sub :: rest =>
    match sub.files.find? hasPattern with
    | none => .error "IndexError: list index out of range"
    | some f =>
      if tfName = labTfName then
        match collectSubPaths senName tfName labTfName rest with
        | .error e => .error e
        | .ok ps => .ok ([senName, tfName, sub.name, f] :: ps)
      else
        .error "AssertionError: writer segment mismatch"

/-- The body of `read_paths` for one non-traced writer-attempt pair:
assert equal sub-subfolder counts, build the label path from the first label
sub-subfolder (`lab_tf[0]` raises `IndexError` when empty), collect one image
path per image sub-subfolder, then broadcast the writer id read from the
label JSON over `number_of_labels` entries. -/
def processAttempt (senName : String) (a : AttemptFolder) (b : LabAttempt) :
    Except String (List Path × List String) :=
  if a.subs.length = b.subs.length then
    match b.subs with
    | [] => .error "IndexError: list index out of range"
    | _ :: _ =>
      match collectSubPaths senName a.name b.name a.subs with
      | .error e => .error e
      | .ok ps => .ok (ps, List.replicate b.subs.length b.writerId)
  else
    .error "AssertionError: subfolder count mismatch"

/-- The sanity-check early-exit condition, shared by the inner loop (on
`i_tf`) and the outer loop (on `i_sen`): break after index 3 when training,
after index 1 otherwise. -/
def brk (sanity isTrain : Bool) (i : Nat) : Bool :=
  sanity && ((isTrain && i == 3) || (!isTrain && i == 1))

/-- The inner loop of `read_paths` over `zip(img_sen.glob("*"),
lab_sen.glob("*"))` with its running index `i_tf`.  A traced attempt is
skipped with `continue`, which also skips the sanity-check break test for
that iteration. -/
def innerLoop (sen : String) (sanity isTrain : Bool) :
    Nat → List (AttemptFolder × LabAttempt) →
    Except String (List Path × List String)
  | _, [] => .ok ([], [])
  | iTf, (a, b) :: rest =>
    if containsTraced a.name then
      innerLoop sen sanity isTrain (iTf + 1) rest
    else
      match processAttempt sen a b with
      | .error e => .error e
      | .ok (ps, ls) =>
        if brk sanity isTrain iTf then
          .ok (ps, ls)
        else
          match innerLoop sen sanity isTrain (iTf + 1) rest with
          | .error e => .error e
          | .ok (ps2, ls2) => .ok (ps ++ ps2, ls ++ ls2)

/-- The outer loop of `read_paths` over `zip(image_p.glob("*"),
lab_p.glob("*"))` with its running index `i_sen`.  The outer sanity-check
break test runs after every inner loop, including ones that broke early. -/
def outerLoop (sanity isTrain : Bool) :
    Nat → List (SentenceFolder × LabSentence) →
    Except String (List Path × List String)
  | _, [] => .ok ([], [])
  | iSen, (s, t) :: rest =>
    match innerLoop s.name sanity isTrain 0 (s.attempts.zip t.attempts) with
    | .error e => .error e
    | .ok (ps, ls) =>
      if brk sanity isTrain iSen then
        .ok (ps, ls)
      else
        match outerLoop sanity isTrain (iSen + 1) rest with
        | .error e => .error e
        | .ok (ps2, ls2) => .ok (ps ++ ps2, ls ++ ls2)

/-- The subtree selection `p = Path(root) / ("Training" if is_train else
"Validation")` together with the image/label branch names. -/
def splitOf (root : RootDir) (isTrain : Bool) : Split :=
  if isTrain then root.training else root.validation

/-- Models `KoreanTypographyDataset.read_paths`: choose the split by `is_train`, run
the two nested loops, and finally assert
`len(image_path_list) == len(label_list)`. -/
def read_paths (root : RootDir) (isTrain sanity : Bool) :
    Except String (List Path × List String) :=
  match outerLoop sanity isTrain 0
      ((splitOf root isTrain).imgSents.zip (splitOf root isTrain).labSents) with
  | .error e => .error e
  | .ok (ps, ls) =>
    if ps.length = ls.length then .ok (ps, ls)
    else .error "AssertionError: path count and label count differ"

/-- Models `np.unique` on a list of strings: the distinct values in sorted order. -/
def npUnique (l : List String) : List String :=
  l.dedup.insertionSort (· ≤ ·)

/-- Models `KoreanTypographyDataset.label_to_integer`: enumerate the sorted distinct
labels and map each to the string form of its index.  The Python dict is
modelled as an association list in insertion order. -/
def label_to_integer (labels : List String) : List (String × String) :=
  (npUnique labels).enum.map fun p => (p.2, toString p.1)

/-- The dataset state after `__init__`: the fields read by `__len__`,
`__getitem__` and `read_image`. -/
structure DS where
  image_path_list : List Path
  label_list : List String
  label2int_map : List (String × String)
deriving DecidableEq, Repr

/-- Models `KoreanTypographyDataset.__init__` (its data part): run `read_paths`,
then build `label2int_map`. -/
def mkDataset (root : RootDir) (isTrain sanity : Bool) : Except String DS :=
  match read_paths root isTrain sanity with
  | .error e => .error e
  | .ok (ps, ls) => .ok ⟨ps, ls, label_to_integer ls⟩

/-- Models `KoreanTypographyDataset.__len__`: `len(self.label_list)`. -/
def dsLen (s : DS) : Nat := s.label_list.length

/-- Models `np.random.choice` on a 1-d array, the random draw passed explicitly:
an empty array raises `ValueError`, otherwise an element is returned. -/
def npChoice (l : List Nat) (r : Nat) : Except String Nat :=
  match l with
  | [] => .error "ValueError: a cannot be empty unless no samples are taken"
  | x :: xs => .ok ((x :: xs).getD (r % (xs.length + 1)) x)

/-- Lines 26–33 of `__getitem__`: look up the anchor label (`IndexError` on a
bad index), compute positive candidates (`np.where(label_arr ==
anchor_label)` then `np.delete` of the anchor index) and negative candidates
(`np.where(label_arr != anchor_label)`), then draw one of each with
`np.random.choice`, positive first. -/
def samplePosNeg (labels : List String) (idx rp rn : Nat) :
    Except String (Nat × Nat) :=
  match labels.get? idx with
  | none => .error "IndexError: list index out of range"
  | some anchor =>
    let posIdxs := ((List.range labels.length).filter
        fun j => labels.getD j "" == anchor).filter fun j => j != idx
    let negIdxs := (List.range labels.length).filter
        fun j => !(labels.getD j "" == anchor)
    match npChoice posIdxs rp with
    | .error e => .error e
    | .ok p =>
      match npChoice negIdxs rn with
      | .error e => .error e
      | .ok n => .ok (p, n)

/-- Models `np.array(image)[:, :, :3]`: keep the first 3 channel values of every
pixel. -/
def slice3 (img : Image) : Image :=
  img.map fun row => row.map fun px => px.take 3

/-- One pass of the backward-probe loop of `read_image`.  `k` is the
magnitude of the Python index `io_idx` (so the first probed file is
`files[-2]`, i.e. `k = 2`); `files[io_idx]` raises `IndexError` once `k`
exceeds `len(files)`.  `rem` counts the probes left before that underflow;
called with `rem = files.length + 1 - k` it runs the Python `while` loop to
its (always reached) termination: decode success or `IndexError`. -/
def probeAux (dec : Path → Option Image) (folder : Path)
    (files : List String) : Nat → Nat → Except String Image
  | _, 0 => .error "IndexError: list index out of range"
  | k, rem + 1 =>
    if files.length < k then
      .error "IndexError: list index out of range"
    else
      match dec (folder ++ [files.getD (files.length - k) ""]) with
      | some img => .ok img
      | none => probeAux dec folder files (k + 1) rem

/-- The backward-probe loop of `read_image`, starting at index `-k`.  In the
source the folder and its listing are recomputed from the current path each
iteration; every probed path lies in the same folder, so the listing is
constant and is computed once here. -/
def probeLoop (dec : Path → Option Image) (folder : Path)
    (files : List String) (k : Nat) : Except String Image :=
  probeAux dec folder files k (files.length + 1 - k)

/-- Models `KoreanTypographyDataset.read_image`: read the recorded path, fall back
to the backward probe on decode failure, then strip to 3 channels.  The
state component records that the method leaves `self` unchanged. -/
def read_image (dec : Path → Option Image) (listing : Path → List String)
    (s : DS) (idx : Nat) : Except String Image × DS :=
  match s.image_path_list.get? idx with
  | none => (.error "IndexError: list index out of range", s)
  | some pth =>
    match dec pth with
    | some raw => (.ok (slice3 raw), s)
    | none =>
      match probeLoop dec pth.dropLast (listing pth.dropLast) 2 with
      | .ok raw => (.ok (slice3 raw), s)
      | .error e => (.error e, s)

/-- Models `image.transpose((2, 0, 1))` on an `H x W x C` array: channel-first
layout, `out[c][h][w] = in[h][w][c]`. -/
def transposeCHW (img : Image) : Image :=
  let C := ((img.headD []).headD []).length
  (List.range C).map fun c => img.map fun row => row.map fun px => px.getD c 0

/-- Models `KoreanTypographyDataset.convert_to_tensor` (the float cast is exact on
uint8 pixel values, see `Image`). -/
def convert_to_tensor (img : Image) : Image :=
  transposeCHW img

/-- Models `KoreanTypographyDataset.__getitem__`: sample the positive and negative
indices, read the three images, apply the optional transform, and convert
each to tensor layout.  The state is threaded through every step; no step
writes to it. -/
def dsGetitem (dec : Path → Option Image) (listing : Path → List String)
    (tr : Option (Image → Image)) (s : DS) (idx rp rn : Nat) :
    Except String (Image × Image × Image) × DS :=
  match samplePosNeg s.label_list idx rp rn with
  | .error e => (.error e, s)
  | .ok (posIdx, negIdx) =>
    match read_image dec listing s idx with
    | (.error e, s1) => (.error e, s1)
    | (.ok anchorImg, s1) =>
      match read_image dec listing s1 posIdx with
      | (.error e, s2) => (.error e, s2)
      | (.ok posImg, s2) =>
        match read_image dec listing s2 negIdx with
        | (.error e, s3) => (.error e, s3)
        | (.ok negImg, s3) =>
          let f : Image → Image := fun i =>
            match tr with
            | some t => t i
            | none => i
          (.ok (convert_to_tensor (f anchorImg),
                convert_to_tensor (f posImg),
                convert_to_tensor (f negImg)), s3)

/-- The writer segment `parts[-3]` of a resolved image path. -/
def writerSegment (p : Path) : String :=
  p.reverse.getD 2 ""

/-- The writer-attempt pairs whose bodies `read_paths`' inner loop runs
(traced attempts are skipped, the sanity break truncates), mirroring
`innerLoop`'s traversal. -/
def processedInner (sanity isTrain : Bool) :
    Nat → List (AttemptFolder × LabAttempt) →
    List (AttemptFolder × LabAttempt)
  | _, [] => []
  | iTf, (a, b) :: rest =>
    if containsTraced a.name then
      processedInner sanity isTrain (iTf + 1) rest
    else
      (a, b) ::
        (if brk sanity isTrain iTf then []
         else processedInner sanity isTrain (iTf + 1) rest)

/-- The writer-attempt pairs the outer loop of `read_paths` reaches, tagged
with the image sentence-folder name, mirroring `outerLoop`'s traversal. -/
def processedOuter (sanity isTrain : Bool) :
    Nat → List (SentenceFolder × LabSentence) →
    List (String × AttemptFolder × LabAttempt)
  | _, [] => []
  | iSen, (s, t) :: rest =>
    ((processedInner sanity isTrain 0 (s.attempts.zip t.attempts)).map
        fun ab => (s.name, ab)) ++
      (if brk sanity isTrain iSen then []
       else processedOuter sanity isTrain (iSen + 1) rest)

/-- All writer-attempt pairs enumerated by `read_paths` on a root. -/
def processedAttempts (root : RootDir) (isTrain sanity : Bool) :
    List (String × AttemptFolder × LabAttempt) :=
  processedOuter sanity isTrain 0
    ((splitOf root isTrain).imgSents.zip (splitOf root isTrain).labSents)

/-- The probe order C2 claims for `read_image`, written from the spec wording
for comparison with the source behavior: on decode failure step backward
from the position of the recorded file in the directory listing, one file at
a time, until a file decodes; an exhausted listing is an out-of-range
error. -/
def read_image_claimModel (dec : Path → Option Image)
    (listing : Path → List String) (s : DS) (idx : Nat) :
    Except String Image :=
  match s.image_path_list.get? idx with
  | none => .error "IndexError: list index out of range"
  | some pth =>
    match dec pth with
    | some raw => .ok (slice3 raw)
    | none =>
      let folder := pth.dropLast
      let files := listing folder
      let pos := (files.takeWhile fun n => n != pth.getLastD "").length
      match (files.take pos).reverse.findSome?
          (fun n => dec (folder ++ [n])) with
      | some raw => .ok (slice3 raw)
      | none => .error "IndexError: list index out of range"

/-! Concrete inputs used by witnesses and counterexamples. -/

/-- A variant sub-subfolder with one non-canonical and one canonical file. -/
def exSub (n : String) : SubFolder :=
  ⟨n, ["a_0140_x.png", "a_0150_x01.png"]⟩

/-- A non-traced writer-attempt with 3 variant sub-subfolders. -/
def exAttempt (n : String) : AttemptFolder :=
  ⟨n, [exSub "s1", exSub "s2", exSub "s3"]⟩

/-- The label-side counterpart of `exAttempt`. -/
def exLabAttempt (n w : String) : LabAttempt :=
  ⟨n, ["s1", "s2", "s3"], w⟩

/-- An image sentence group with 2 non-traced writer-attempts. -/
def exSent (n : String) : SentenceFolder :=
  ⟨n, [exAttempt "A1", exAttempt "A2"]⟩

/-- The label-side counterpart of `exSent`. -/
def exLabSent (n : String) : LabSentence :=
  ⟨n, [exLabAttempt "A1" "w1", exLabAttempt "A2" "w2"]⟩

/-- The root of C3's example corpus: 2 sentence groups, 2 non-traced
writer-attempts each, 3 variant sub-subfolders each. -/
def exRoot : RootDir :=
  ⟨⟨[exSent "g1", exSent "g2"], [exLabSent "g1", exLabSent "g2"]⟩, ⟨[], []⟩⟩

/-- A root with one writer-attempt whose image side has 3 sub-subfolders but
whose label side has none. -/
def badRoot : RootDir :=
  ⟨⟨[⟨"g1", [exAttempt "A1"]⟩], [⟨"g1", [⟨"A1", [], "w1"⟩]⟩]⟩, ⟨[], []⟩⟩

/-- A root with one well-paired writer-attempt whose single image
sub-subfolder has no file matching the canonical pattern. -/
def noPatRoot : RootDir :=
  ⟨⟨[⟨"g1", [⟨"A1", [⟨"s1", ["a_0140_x.png"]⟩]⟩]⟩],
    [⟨"g1", [⟨"A1", ["s1"], "w1"⟩]⟩]⟩, ⟨[], []⟩⟩

/-- Decode oracle for C2's scenarios: in folder `d`, file `a.png` (the
recorded canonical file, first in the listing) is corrupted and `b.png`
decodes. -/
def exDec : Path → Option Image := fun p =>
  if p = ["d", "b.png"] then some [[[10, 11, 12, 13]]] else none

/-- Listing oracle for C2's scenarios: folder `d` lists three files. -/
def exListing : Path → List String := fun p =>
  if p = ["d"] then ["a.png", "b.png", "c.png"] else []

/-- Dataset state whose single sample records the corrupted file `a.png`. -/
def exDS : DS := ⟨[["d", "a.png"]], ["w1"], [("w1", "0")]⟩

/-- The dataset built from `exRoot` (training split, no sanity check). -/
def exBuilt : DS :=
  ((mkDataset exRoot true false).toOption).getD ⟨[], [], []⟩

/-- The resolved path/label lists of `exRoot` (training split, no sanity
check). -/
def exResolved : List Path × List String :=
  ((read_paths exRoot true false).toOption).getD ([], [])

/-- The resolved sample count of a root, `none` when construction aborts. -/
def labelCount (root : RootDir) (it sc : Bool) : Option Nat :=
  match read_paths root it sc with
  | .ok (_, ls) => some ls.length
  | .error _ => none

/-! ## Helper lemmas -/

/-- The model of `np.random.choice` only ever returns an element of its argument. -/
theorem npChoice_mem {l : List Nat} {r x : Nat} (h : npChoice l r = .ok x) :
    x ∈ l := by
  cases l with
  | nil => simp [npChoice] at h
  | cons y ys =>
    simp only [npChoice, Except.ok.injEq] at h
    subst h
    have hlt : r % (ys.length + 1) < (y :: ys).length := by
      simp [Nat.mod_lt]
    rw [List.getD_eq_getElem _ _ hlt]
    exact List.getElem_mem hlt

/-- The method `read_image` never writes to the dataset state. -/
theorem read_image_state (dec : Path → Option Image)
    (listing : Path → List String) (s : DS) (idx : Nat) :
    (read_image dec listing s idx).2 = s := by
  unfold read_image
  repeat' split
  all_goals rfl

/-- Two distinct positions holding the same value force a count of at
least 2. -/
theorem two_le_count_of_get {l : List String} {i j : Nat} {a : String}
    (hi : l.get? i = some a) (hj : l.get? j = some a) (hne : i ≠ j) :
    2 ≤ l.count a := by
  induction l generalizing i j with
  | nil => simp at hi
  | cons x xs ih =>
    rcases i with _ | i' <;> rcases j with _ | j'
    · exact absurd rfl hne
    · have hx : x = a := by simpa using hi
      simp only [List.get?_cons_succ] at hj
      have hmem : a ∈ xs := List.get?_mem hj
      have h1 : 0 < xs.count a := List.count_pos_iff.mpr hmem
      subst hx
      rw [List.count_cons_self]
      omega
    · have hx : x = a := by simpa using hj
      simp only [List.get?_cons_succ] at hi
      have hmem : a ∈ xs := List.get?_mem hi
      have h1 : 0 < xs.count a := List.count_pos_iff.mpr hmem
      subst hx
      rw [List.count_cons_self]
      omega
    · simp only [List.get?_cons_succ] at hi hj
      have h2 := ih hi hj (fun hc => hne (by omega))
      have h3 : xs.count a ≤ (x :: xs).count a := by
        rw [List.count_cons]
        omega
      omega

/-! ## Claim theorems -/

/-- Claim C9: every call of `__getitem__` leaves the dataset state (its
`image_path_list`, `label_list` and `label2int_map`) unchanged, for every
index, random draw, transform and filesystem. -/
theorem getitem_preserves_state (dec : Path → Option Image)
    (listing : Path → List String) (tr : Option (Image → Image)) (s : DS)
    (idx rp rn : Nat) :
    (dsGetitem dec listing tr s idx rp rn).2 = s ∧
    ((dsGetitem dec listing tr s idx rp rn).2.image_path_list =
        s.image_path_list ∧
      (dsGetitem dec listing tr s idx rp rn).2.label_list = s.label_list ∧
      (dsGetitem dec listing tr s idx rp rn).2.label2int_map =
        s.label2int_map) := by
  have hmain : (dsGetitem dec listing tr s idx rp rn).2 = s := by
    unfold dsGetitem
    split
    · rfl
    · split
      · rename_i e1 s1 heq1
        have a1 := congrArg Prod.snd heq1
        rw [read_image_state] at a1
        exact a1.symm
      · rename_i img1 s1 heq1
        have a1 : s = s1 := by
          have := congrArg Prod.snd heq1
          rwa [read_image_state] at this
        split
        · rename_i e2 s2 heq2
          have a2 : s1 = s2 := by
            have := congrArg Prod.snd heq2
            rwa [read_image_state] at this
          show s2 = s
          rw [← a2, ← a1]
        · rename_i img2 s2 heq2
          have a2 : s1 = s2 := by
            have := congrArg Prod.snd heq2
            rwa [read_image_state] at this
          split
          · rename_i e3 s3 heq3
            have a3 : s2 = s3 := by
              have := congrArg Prod.snd heq3
              rwa [read_image_state] at this
            show s3 = s
            rw [← a3, ← a2, ← a1]
          · rename_i img3 s3 heq3
            have a3 : s2 = s3 := by
              have := congrArg Prod.snd heq3
              rwa [read_image_state] at this
            show s3 = s
            rw [← a3, ← a2, ← a1]
  exact ⟨hmain, by rw [hmain], by rw [hmain], by rw [hmain]⟩

/-- Claim C5: a successful construction resolves as many image paths as
writer ids (the final assertion makes any violation fatal), and `__len__`
returns exactly that common count. -/
theorem construction_length_invariant (root : RootDir) (isTrain sanity : Bool)
    (ds : DS) (h : mkDataset root isTrain sanity = .ok ds) :
    ds.image_path_list.length = ds.label_list.length ∧
    dsLen ds = ds.image_path_list.length := by
  unfold mkDataset at h
  split at h
  · exact absurd h (by simp)
  · rename_i ps ls hre
    cases h
    unfold read_paths at hre
    split at hre
    · exact absurd hre (by simp)
    · rename_i ps' ls' hout
      split at hre
      · rename_i hlen
        cases hre
        exact ⟨hlen, hlen.symm⟩
      · exact absurd hre (by simp)

/-- Witness: C5's theorem applied to the concrete example corpus. -/
theorem construction_length_invariant_witness :
    mkDataset exRoot true false = .ok exBuilt ∧
    exBuilt.image_path_list.length = exBuilt.label_list.length ∧
    dsLen exBuilt = exBuilt.image_path_list.length := by
  have h : mkDataset exRoot true false = .ok exBuilt := by rfl
  exact ⟨h, construction_length_invariant exRoot true false exBuilt h⟩

/-- Claim C1: whenever the anchor's writer id occurs at another index and
some index carries a different writer id, the chosen positive index differs
from the anchor and shares its label, and the chosen negative index carries a
different label, for every random draw. -/
theorem getitem_triplet_indices_valid (labels : List String)
    (idx rp rn j k : Nat)
    (hidx : idx < labels.length)
    (hj : j < labels.length) (hji : j ≠ idx)
    (hjl : labels.getD j "" = labels.getD idx "")
    (hk : k < labels.length)
    (hkl : labels.getD k "" ≠ labels.getD idx "") :
    ∃ p n, samplePosNeg labels idx rp rn = .ok (p, n) ∧
      p ≠ idx ∧ p < labels.length ∧
      labels.getD p "" = labels.getD idx "" ∧
      n < labels.length ∧
      labels.getD n "" ≠ labels.getD idx "" := by
  have hget : labels.get? idx = some (labels.getD idx "") := by
    rw [List.get?_eq_getElem?, List.getElem?_eq_getElem hidx,
      List.getD_eq_getElem _ _ hidx]
  have hjmem : j ∈ ((List.range labels.length).filter
      fun j' => labels.getD j' "" == labels.getD idx "").filter
        fun j' => j' != idx := by
    refine List.mem_filter.mpr ⟨List.mem_filter.mpr
      ⟨List.mem_range.mpr hj, ?_⟩, ?_⟩
    · exact beq_iff_eq.mpr hjl
    · simpa using hji
  have hkmem : k ∈ (List.range labels.length).filter
      fun j' => !(labels.getD j' "" == labels.getD idx "") := by
    refine List.mem_filter.mpr ⟨List.mem_range.mpr hk, ?_⟩
    simpa using hkl
  simp only [samplePosNeg, hget]
  rcases hPcase : (((List.range labels.length).filter
      fun j' => labels.getD j' "" == labels.getD idx "").filter
        fun j' => j' != idx) with _ | ⟨x, xs⟩
  · rw [hPcase] at hjmem
    simp at hjmem
  rcases hNcase : ((List.range labels.length).filter
      fun j' => !(labels.getD j' "" == labels.getD idx "")) with _ | ⟨y, ys⟩
  · rw [hNcase] at hkmem
    simp at hkmem
  obtain ⟨p, hp⟩ : ∃ p', npChoice (x :: xs) rp = .ok p' := ⟨_, rfl⟩
  have hpm : p ∈ x :: xs := npChoice_mem hp
  rw [← hPcase] at hpm
  obtain ⟨n, hn⟩ : ∃ n', npChoice (y :: ys) rn = .ok n' := ⟨_, rfl⟩
  have hnm : n ∈ y :: ys := npChoice_mem hn
  rw [← hNcase] at hnm
  rw [List.mem_filter] at hpm hnm
  obtain ⟨hpm1, hpm2⟩ := hpm
  rw [List.mem_filter] at hpm1
  obtain ⟨hpr, hpeq⟩ := hpm1
  obtain ⟨hnr, hneq⟩ := hnm
  refine ⟨p, n, ?_, ?_, ?_, ?_, ?_, ?_⟩
  · rw [hp, hn]
  · simpa using hpm2
  · exact List.mem_range.mp hpr
  · exact beq_iff_eq.mp hpeq
  · exact List.mem_range.mp hnr
  · simpa using hneq

/-- Witness: C1's theorem at a concrete label list. -/
theorem getitem_triplet_indices_valid_witness :
    ∃ p n, samplePosNeg ["a", "a", "b"] 0 5 7 = .ok (p, n) ∧
      p ≠ 0 ∧ p < (["a", "a", "b"] : List String).length ∧
      (["a", "a", "b"] : List String).getD p "" =
        (["a", "a", "b"] : List String).getD 0 "" ∧
      n < (["a", "a", "b"] : List String).length ∧
      (["a", "a", "b"] : List String).getD n "" ≠
        (["a", "a", "b"] : List String).getD 0 "" :=
  getitem_triplet_indices_valid ["a", "a", "b"] 0 5 7 1 2 (by decide)
    (by decide) (by decide) (by decide) (by decide) (by decide)

/-- Claim C8: an anchor whose writer id occurs exactly once leaves the
positive-candidate array empty, so `np.random.choice` raises its
empty-selection `ValueError`, and `__getitem__` propagates it unchanged. -/
theorem missing_positive_candidate_fails (dec : Path → Option Image)
    (listing : Path → List String) (tr : Option (Image → Image)) (s : DS)
    (idx rp rn : Nat)
    (hidx : idx < s.label_list.length)
    (h2 : s.label_list.count (s.label_list.getD idx "") = 1) :
    samplePosNeg s.label_list idx rp rn =
      .error "ValueError: a cannot be empty unless no samples are taken" ∧
    dsGetitem dec listing tr s idx rp rn =
      (.error "ValueError: a cannot be empty unless no samples are taken",
        s) := by
  have hget : s.label_list.get? idx = some (s.label_list.getD idx "") := by
    rw [List.get?_eq_getElem?, List.getElem?_eq_getElem hidx,
      List.getD_eq_getElem _ _ hidx]
  have hpos : (((List.range s.label_list.length).filter
      fun j' => s.label_list.getD j' "" == s.label_list.getD idx "").filter
        fun j' => j' != idx) = [] := by
    rw [List.filter_eq_nil_iff]
    intro a ha
    rw [List.mem_filter] at ha
    obtain ⟨har, haeq⟩ := ha
    rw [List.mem_range] at har
    simp only [bne_iff_ne, ne_eq, not_not]
    by_contra hne
    have hga : s.label_list.get? a = some (s.label_list.getD idx "") := by
      have heqa : s.label_list.getD a "" = s.label_list.getD idx "" :=
        beq_iff_eq.mp haeq
      rw [List.get?_eq_getElem?, List.getElem?_eq_getElem har,
        ← List.getD_eq_getElem _ _ har, heqa]
    have := two_le_count_of_get hga hget hne
    omega
  have hfirst : samplePosNeg s.label_list idx rp rn =
      .error "ValueError: a cannot be empty unless no samples are taken" := by
    simp only [samplePosNeg, hget]
    rw [hpos]
    rfl
  refine ⟨hfirst, ?_⟩
  unfold dsGetitem
  rw [hfirst]

/-- Witness: C8's theorem at a concrete dataset state. -/
theorem missing_positive_candidate_fails_witness :
    samplePosNeg (DS.mk [] ["a", "b", "b"] []).label_list 0 3 4 =
      .error "ValueError: a cannot be empty unless no samples are taken" ∧
    dsGetitem exDec exListing none (DS.mk [] ["a", "b", "b"] []) 0 3 4 =
      (.error "ValueError: a cannot be empty unless no samples are taken",
        DS.mk [] ["a", "b", "b"] []) :=
  missing_positive_candidate_fails exDec exListing none
    (DS.mk [] ["a", "b", "b"] []) 0 3 4 (by decide) (by decide)

/-- Claim C7: `label_to_integer` keys are exactly the distinct writer ids
(sorted, without duplicates), its values are the string forms of consecutive
integers from 0, it is invariant under permutation of its input, and an
empty input yields an empty map. -/
theorem label_to_integer_spec (labels : List String) :
    ((label_to_integer labels).map Prod.fst = npUnique labels) ∧
    (∀ s, s ∈ (label_to_integer labels).map Prod.fst ↔ s ∈ labels) ∧
    ((label_to_integer labels).map Prod.fst).Nodup ∧
    List.Sorted (· ≤ ·) ((label_to_integer labels).map Prod.fst) ∧
    ((label_to_integer labels).map Prod.snd =
      (List.range labels.dedup.length).map toString) ∧
    (∀ l₂, labels.Perm l₂ → label_to_integer labels = label_to_integer l₂) ∧
    (label_to_integer ([] : List String) = []) := by
  have hfst : (label_to_integer labels).map Prod.fst = npUnique labels := by
    unfold label_to_integer
    rw [List.map_map]
    have hcomp : (Prod.fst ∘ fun p : Nat × String => (p.2, toString p.1)) =
        Prod.snd := rfl
    rw [hcomp, List.enum_map_snd]
  refine ⟨hfst, ?_, ?_, ?_, ?_, ?_, rfl⟩
  · intro s
    rw [hfst]
    unfold npUnique
    rw [List.mem_insertionSort, List.mem_dedup]
  · rw [hfst]
    exact ((List.perm_insertionSort _ _).nodup_iff).mpr (labels.nodup_dedup)
  · rw [hfst]
    exact List.sorted_insertionSort _ _
  · unfold label_to_integer
    rw [List.map_map]
    have hcomp : (Prod.snd ∘ fun p : Nat × String => (p.2, toString p.1)) =
        toString ∘ Prod.fst := rfl
    rw [hcomp, ← List.map_map, List.enum_map_fst]
    unfold npUnique
    rw [List.length_insertionSort]
  · intro l₂ hp
    have hu : npUnique labels = npUnique l₂ := by
      have h1 : List.Sorted (· ≤ ·) (npUnique labels) :=
        List.sorted_insertionSort _ _
      have h2 : List.Sorted (· ≤ ·) (npUnique l₂) :=
        List.sorted_insertionSort _ _
      have h3 : (npUnique labels).Perm (npUnique l₂) :=
        (List.perm_insertionSort _ _).trans
          (hp.dedup.trans (List.perm_insertionSort _ _).symm)
      exact List.eq_of_perm_of_sorted h3 h1 h2
    unfold label_to_integer
    rw [hu]

/-- Witness: C7's permutation-invariance at a concrete pair of lists. -/
theorem label_to_integer_spec_witness :
    label_to_integer ["b", "a", "b"] = label_to_integer ["a", "b", "b"] :=
  (label_to_integer_spec ["b", "a", "b"]).2.2.2.2.2.1 ["a", "b", "b"]
    (by decide)

/-- The probe loop visits `files[-2], files[-3], ...` — i.e. the listing
without its last entry, scanned back to front — and raises `IndexError` on
underflow. -/
theorem probeAux_eq (dec : Path → Option Image) (folder : Path)
    (files : List String) :
    ∀ rem k, 1 ≤ k → rem + k = files.length + 1 →
      probeAux dec folder files k rem =
        (match (files.take rem).reverse.findSome?
            (fun nm => dec (folder ++ [nm])) with
         | some img => Except.ok img
         | none => Except.error "IndexError: list index out of range") := by
  intro rem
  induction rem with
  | zero => intro k hk hsum; rfl
  | succ rem ih =>
    intro k hk hsum
    have hnotlt : ¬ files.length < k := by omega
    have hremlt : rem < files.length := by omega
    rw [probeAux, if_neg hnotlt]
    have hidx : files.length - k = rem := by omega
    rw [hidx]
    have htake : files.take (rem + 1) = files.take rem ++ [files[rem]] := by
      rw [List.take_succ, List.getElem?_eq_getElem hremlt]
      rfl
    rw [htake, List.reverse_append]
    simp only [List.reverse_singleton, List.singleton_append]
    rw [List.findSome?_cons]
    have hgd : files.getD rem "" = files[rem] :=
      List.getD_eq_getElem _ _ hremlt
    rw [hgd]
    cases hdec : dec (folder ++ [files[rem]]) with
    | some img => rfl
    | none => exact ih (k + 1) (by omega) (by omega)

/-- The loop `probeLoop` started at `k = 2`, as `read_image` starts it: a backward
scan of the listing minus its final entry. -/
theorem probeLoop_two_eq (dec : Path → Option Image) (folder : Path)
    (files : List String) :
    probeLoop dec folder files 2 =
      (match (files.take (files.length - 1)).reverse.findSome?
          (fun nm => dec (folder ++ [nm])) with
       | some img => Except.ok img
       | none => Except.error "IndexError: list index out of range") := by
  unfold probeLoop
  have hr : files.length + 1 - 2 = files.length - 1 := by omega
  rw [hr]
  by_cases hL : files.length = 0
  · rw [hL]
    rfl
  · exact probeAux_eq dec folder files (files.length - 1) 2 (by omega)
      (by omega)

/-- Claim C2, amended: on decode failure of the recorded path, `read_image`
probes the directory listing from its second-to-last entry backward to the
front (not from the recorded file's own position), the exhausted listing
surfaces as an `IndexError`, and every successfully returned image keeps
exactly the first 3 channels of the decoded file. -/
theorem read_image_amended :
    (∀ (dec : Path → Option Image) (listing : Path → List String) (s : DS)
        (idx : Nat) (pth : Path),
      s.image_path_list.get? idx = some pth → dec pth = none →
      read_image dec listing s idx =
        ((match ((listing pth.dropLast).take
              ((listing pth.dropLast).length - 1)).reverse.findSome?
              (fun nm => dec (pth.dropLast ++ [nm])) with
          | some raw => Except.ok (slice3 raw)
          | none => Except.error "IndexError: list index out of range"),
          s)) ∧
    (∀ (dec : Path → Option Image) (listing : Path → List String) (s : DS)
        (idx : Nat) (img : Image),
      (read_image dec listing s idx).1 = .ok img →
      ∃ raw, img = slice3 raw) := by
  constructor
  · intro dec listing s idx pth h1 h2
    unfold read_image
    simp only [h1, h2]
    rw [probeLoop_two_eq]
    rcases hf : ((listing pth.dropLast).take
        ((listing pth.dropLast).length - 1)).reverse.findSome?
        (fun nm => dec (pth.dropLast ++ [nm])) with _ | raw
    · rfl
    · rfl
  · intro dec listing s idx img h
    unfold read_image at h
    split at h
    · simp at h
    · split at h
      · rename_i raw _
        simp only at h
        exact ⟨raw, by simpa using h.symm⟩
      · split at h
        · rename_i raw _
          simp only at h
          exact ⟨raw, by simpa using h.symm⟩
        · simp at h

/-- Witness: C2's amended theorem at the concrete corrupted-file scenario
(`a.png` is recorded and corrupted, `b.png` decodes). -/
theorem read_image_amended_witness :
    exDS.image_path_list.get? 0 = some ["d", "a.png"] ∧
    exDec ["d", "a.png"] = none ∧
    read_image exDec exListing exDS 0 =
      ((match ((exListing (["d", "a.png"] : Path).dropLast).take
            ((exListing (["d", "a.png"] : Path).dropLast).length -
              1)).reverse.findSome?
            (fun nm => exDec ((["d", "a.png"] : Path).dropLast ++ [nm])) with
        | some raw => Except.ok (slice3 raw)
        | none => Except.error "IndexError: list index out of range"),
        exDS) := by
  refine ⟨rfl, rfl, ?_⟩
  exact read_image_amended.1 exDec exListing exDS 0 ["d", "a.png"] rfl rfl

/-- Counterexample to claim C2 as stated: with the recorded file first in
its directory listing, stepping backward from the recorded file (the claimed
behavior, `read_image_claimModel`) exhausts the listing and fails, while the
source code decodes `b.png` — a file listed after the recorded one — and
returns it. -/
theorem read_image_probe_origin_cex :
    read_image exDec exListing exDS 0 = (.ok [[[10, 11, 12]]], exDS) ∧
    read_image_claimModel exDec exListing exDS 0 =
      .error "IndexError: list index out of range" := by
  exact ⟨rfl, rfl⟩

/-- What a successful `collectSubPaths` guarantees: every sub-subfolder has
a canonical-pattern file, the writer segments agreed whenever a sub-subfolder
was checked, and every produced path carries the image attempt name as its
writer segment. -/
theorem collectSubPaths_ok (sn tf ltf : String) :
    ∀ subs ps, collectSubPaths sn tf ltf subs = .ok ps →
      (∀ sub ∈ subs, ∃ f, f ∈ sub.files ∧ hasPattern f = true) ∧
      (subs ≠ [] → tf = ltf) ∧
      (∀ p ∈ ps, writerSegment p = tf) := by
  intro subs
  induction subs with
  | nil =>
    intro ps h
    simp only [collectSubPaths, Except.ok.injEq] at h
    subst h
    exact ⟨by simp, fun hc => absurd rfl hc, by simp⟩
  | cons sub rest ih =>
    intro ps h
    simp only [collectSubPaths] at h
    rcases hf : sub.files.find? hasPattern with _ | f
    · simp [hf] at h
    · simp only [hf] at h
      split at h
      · rename_i hname
        rcases hrest : collectSubPaths sn tf ltf rest with e | ps'
        · simp [hrest] at h
        · simp only [hrest, Except.ok.injEq] at h
          subst h
          obtain ⟨ih1, _, ih3⟩ := ih ps' hrest
          refine ⟨?_, fun _ => hname, ?_⟩
          · intro s hs
            rcases List.mem_cons.mp hs with rfl | hs
            · exact ⟨f, List.mem_of_find?_eq_some hf, List.find?_some hf⟩
            · exact ih1 s hs
          · intro p hp
            rcases List.mem_cons.mp hp with rfl | hp
            · rfl
            · exact ih3 p hp
      · simp at h

/-- What a successful `processAttempt` guarantees: equal sub-subfolder
counts, matching writer segments, a canonical-pattern file in every image
sub-subfolder, and every produced path tagged with the attempt name. -/
theorem processAttempt_ok (sn : String) (a : AttemptFolder) (b : LabAttempt)
    (r : List Path × List String) (h : processAttempt sn a b = .ok r) :
    a.subs.length = b.subs.length ∧ a.name = b.name ∧
    (∀ sub ∈ a.subs, ∃ f, f ∈ sub.files ∧ hasPattern f = true) ∧
    (∀ p ∈ r.1, writerSegment p = a.name) := by
  unfold processAttempt at h
  split at h
  · rename_i hlen
    split at h
    · simp at h
    · rename_i s0 srest hbs
      rcases hcol : collectSubPaths sn a.name b.name a.subs with e | ps
      · simp [hcol] at h
      · simp only [hcol, Except.ok.injEq] at h
        obtain ⟨h1, h2, h3⟩ := collectSubPaths_ok sn a.name b.name a.subs ps
          hcol
        have hne : a.subs ≠ [] := by
          intro hc
          rw [hc] at hlen
          rw [hbs] at hlen
          simp at hlen
        refine ⟨hlen, h2 hne, h1, ?_⟩
        intro p hp
        rw [← h] at hp
        exact h3 p hp
  · simp at h

/-- Every writer-attempt pair the traversal reaches was processed
successfully whenever the inner loop returned `.ok`. -/
theorem innerLoop_ok_processed (sen : String) (sc it : Bool) :
    ∀ (l : List (AttemptFolder × LabAttempt)) (i : Nat) r,
      innerLoop sen sc it i l = .ok r →
      ∀ ab ∈ processedInner sc it i l,
        ∃ r', processAttempt sen ab.1 ab.2 = .ok r' := by
  intro l
  induction l with
  | nil =>
    intro i r h ab hab
    simp [processedInner] at hab
  | cons hd tl ih =>
    obtain ⟨a, b⟩ := hd
    intro i r h ab hab
    simp only [innerLoop] at h
    simp only [processedInner] at hab
    by_cases ht : containsTraced a.name = true
    · simp only [ht, if_true] at h hab
      exact ih (i + 1) r h ab hab
    · have ht' : containsTraced a.name = false := by simpa using ht
      simp only [ht', Bool.false_eq_true, if_false] at h hab
      rcases hpa : processAttempt sen a b with e | ⟨ps0, ls0⟩
      · simp [hpa] at h
      · simp only [hpa] at h
        rcases List.mem_cons.mp hab with rfl | hab2
        · exact ⟨(ps0, ls0), hpa⟩
        · by_cases hb : brk sc it i = true
          · simp only [hb, if_true] at hab2
            simp at hab2
          · have hb' : brk sc it i = false := by simpa using hb
            simp only [hb', Bool.false_eq_true, if_false] at h hab2
            rcases hrest : innerLoop sen sc it (i + 1) tl with e2 | r2
            · simp [hrest] at h
            · exact ih (i + 1) r2 hrest ab hab2

/-- Lifts `innerLoop_ok_processed` through the outer loop. -/
theorem outerLoop_ok_processed (sc it : Bool) :
    ∀ (L : List (SentenceFolder × LabSentence)) (i : Nat) r,
      outerLoop sc it i L = .ok r →
      ∀ x ∈ processedOuter sc it i L,
        ∃ r', processAttempt x.1 x.2.1 x.2.2 = .ok r' := by
  intro L
  induction L with
  | nil =>
    intro i r h x hx
    simp [processedOuter] at hx
  | cons hd tl ih =>
    obtain ⟨s, t⟩ := hd
    intro i r h x hx
    simp only [outerLoop] at h
    simp only [processedOuter] at hx
    rcases hin : innerLoop s.name sc it 0 (s.attempts.zip t.attempts)
      with e | ⟨ps0, ls0⟩
    · simp [hin] at h
    · simp only [hin] at h
      rcases List.mem_append.mp hx with hx1 | hx2
      · obtain ⟨ab, habIn, rfl⟩ := List.mem_map.mp hx1
        exact innerLoop_ok_processed s.name sc it
          (s.attempts.zip t.attempts) 0 (ps0, ls0) hin ab habIn
      · by_cases hb : brk sc it i = true
        · simp only [hb, if_true] at hx2
          simp at hx2
        · have hb' : brk sc it i = false := by simpa using hb
          simp only [hb', Bool.false_eq_true, if_false] at h hx2
          rcases houter : outerLoop sc it (i + 1) tl with e2 | r2
          · simp [houter] at h
          · exact ih (i + 1) r2 houter x hx2

/-- Every writer-attempt pair enumerated by a successful `read_paths` run
was processed successfully. -/
theorem read_paths_ok_processed (root : RootDir) (it sc : Bool)
    (ps : List Path) (ls : List String)
    (h : read_paths root it sc = .ok (ps, ls)) :
    ∀ x ∈ processedAttempts root it sc,
      ∃ r', processAttempt x.1 x.2.1 x.2.2 = .ok r' := by
  unfold read_paths at h
  split at h
  · exact absurd h (by simp)
  · rename_i ps' ls' hout
    intro x hx
    exact outerLoop_ok_processed sc it _ 0 (ps', ls') hout x hx

/-- Claim C4: any enumerated writer-attempt pair with mismatched
sub-subfolder counts or mismatched writer segments makes `read_paths` abort
with an error, so no sample lists are produced. -/
theorem structural_mismatch_aborts (root : RootDir) (it sc : Bool)
    (sn : String) (a : AttemptFolder) (b : LabAttempt)
    (hmem : (sn, a, b) ∈ processedAttempts root it sc)
    (hmis : a.subs.length ≠ b.subs.length ∨ a.name ≠ b.name) :
    ∃ e, read_paths root it sc = .error e := by
  rcases h : read_paths root it sc with e | r
  · exact ⟨e, rfl⟩
  · exfalso
    obtain ⟨ps, ls⟩ := r
    obtain ⟨r', hok⟩ := read_paths_ok_processed root it sc ps ls h (sn, a, b)
      hmem
    obtain ⟨h1, h2, _, _⟩ := processAttempt_ok sn a b r' hok
    rcases hmis with hm | hm
    · exact hm h1
    · exact hm h2

/-- Witness: C4's theorem on the corpus whose single writer-attempt has 3
image sub-subfolders but no label sub-subfolder. -/
theorem structural_mismatch_aborts_witness :
    ∃ e, read_paths badRoot true false = .error e :=
  structural_mismatch_aborts badRoot true false "g1" (exAttempt "A1")
    (LabAttempt.mk "A1" [] "w1") (by decide) (by decide)

/-- With matching writer segments, a sub-subfolder without a
canonical-pattern file makes `collectSubPaths` fail with the `IndexError`
from `list(img_pos.glob("*_0150_x*"))[0]`. -/
theorem collect_err_missing (sn tf : String) :
    ∀ subs, (∃ sub ∈ subs, ∀ f ∈ sub.files, hasPattern f = false) →
      collectSubPaths sn tf tf subs =
        .error "IndexError: list index out of range" := by
  intro subs
  induction subs with
  | nil =>
    rintro ⟨sub, hmem, _⟩
    simp at hmem
  | cons s rest ih =>
    rintro ⟨sub, hmem, hall⟩
    simp only [collectSubPaths]
    rcases hf : s.files.find? hasPattern with _ | f
    · rfl
    · have hfp := List.find?_some hf
      have hfm := List.mem_of_find?_eq_some hf
      rcases List.mem_cons.mp hmem with rfl | hmem2
      · rw [hall f hfm] at hfp
        exact absurd hfp (by simp)
      · simp [ih ⟨sub, hmem2, hall⟩]

/-- Claim C10: an enumerated, non-excluded image sub-subfolder with no file
matching `*_0150_x*` makes the pattern-selection step fail with an
out-of-range error (given the attempt is otherwise well-paired), and makes
the whole construction abort rather than skip or substitute. -/
theorem missing_pattern_file_aborts :
    (∀ (sn : String) (a : AttemptFolder) (b : LabAttempt) (sub : SubFolder),
      a.subs.length = b.subs.length → a.name = b.name → sub ∈ a.subs →
      (∀ f ∈ sub.files, hasPattern f = false) →
      processAttempt sn a b = .error "IndexError: list index out of range") ∧
    (∀ (root : RootDir) (it sc : Bool) (sn : String) (a : AttemptFolder)
        (b : LabAttempt) (sub : SubFolder),
      (sn, a, b) ∈ processedAttempts root it sc → sub ∈ a.subs →
      (∀ f ∈ sub.files, hasPattern f = false) →
      ∃ e, read_paths root it sc = .error e) := by
  constructor
  · intro sn a b sub hlen hname hmem hall
    unfold processAttempt
    rw [if_pos hlen]
    rcases hbs : b.subs with _ | ⟨s0, srest⟩
    · exfalso
      have hanil : a.subs = [] := by
        rw [hbs] at hlen
        simpa using hlen
      rw [hanil] at hmem
      simp at hmem
    · rw [← hname]
      simp only [collect_err_missing sn a.name a.subs ⟨sub, hmem, hall⟩]
  · intro root it sc sn a b sub hmem hsub hall
    rcases h : read_paths root it sc with e | r
    · exact ⟨e, rfl⟩
    · exfalso
      obtain ⟨ps, ls⟩ := r
      obtain ⟨r', hok⟩ := read_paths_ok_processed root it sc ps ls h
        (sn, a, b) hmem
      obtain ⟨_, _, h3, _⟩ := processAttempt_ok sn a b r' hok
      obtain ⟨f, hfm, hfp⟩ := h3 sub hsub
      rw [hall f hfm] at hfp
      exact absurd hfp (by simp)

/-- Witness: C10's theorem on the corpus whose single sub-subfolder holds
only `a_0140_x.png`. -/
theorem missing_pattern_file_aborts_witness :
    ∃ e, read_paths noPatRoot true false = .error e :=
  missing_pattern_file_aborts.2 noPatRoot true false "g1"
    (AttemptFolder.mk "A1" [SubFolder.mk "s1" ["a_0140_x.png"]])
    (LabAttempt.mk "A1" ["s1"] "w1")
    (SubFolder.mk "s1" ["a_0140_x.png"]) (by decide) (by decide) (by decide)

/-- Every path produced by a successful inner loop carries a non-traced
writer segment. -/
theorem innerLoop_ok_paths (sen : String) (sc it : Bool) :
    ∀ (l : List (AttemptFolder × LabAttempt)) (i : Nat) ps ls,
      innerLoop sen sc it i l = .ok (ps, ls) →
      ∀ p ∈ ps, containsTraced (writerSegment p) = false := by
  intro l
  induction l with
  | nil =>
    intro i ps ls h p hp
    simp only [innerLoop, Except.ok.injEq, Prod.mk.injEq] at h
    obtain ⟨h1, _⟩ := h
    rw [← h1] at hp
    simp at hp
  | cons hd tl ih =>
    obtain ⟨a, b⟩ := hd
    intro i ps ls h
    simp only [innerLoop] at h
    by_cases ht : containsTraced a.name = true
    · simp only [ht, if_true] at h
      exact ih (i + 1) ps ls h
    · have ht' : containsTraced a.name = false := by simpa using ht
      simp only [ht', Bool.false_eq_true, if_false] at h
      rcases hpa : processAttempt sen a b with e | ⟨ps0, ls0⟩
      · simp [hpa] at h
      · simp only [hpa] at h
        have hseg : ∀ p ∈ ps0, writerSegment p = a.name :=
          (processAttempt_ok sen a b (ps0, ls0) hpa).2.2.2
        by_cases hb : brk sc it i = true
        · simp only [hb, if_true, Except.ok.injEq, Prod.mk.injEq] at h
          obtain ⟨h1, _⟩ := h
          subst h1
          intro p hp
          rw [hseg p hp]
          exact ht'
        · have hb' : brk sc it i = false := by simpa using hb
          simp only [hb', Bool.false_eq_true, if_false] at h
          rcases hrest : innerLoop sen sc it (i + 1) tl with e2 | ⟨ps2, ls2⟩
          · simp [hrest] at h
          · simp only [hrest, Except.ok.injEq, Prod.mk.injEq] at h
            obtain ⟨h1, _⟩ := h
            subst h1
            intro p hp
            rcases List.mem_append.mp hp with hp1 | hp2
            · rw [hseg p hp1]
              exact ht'
            · exact ih (i + 1) ps2 ls2 hrest p hp2

/-- Lifts `innerLoop_ok_paths` through the outer loop. -/
theorem outerLoop_ok_paths (sc it : Bool) :
    ∀ (L : List (SentenceFolder × LabSentence)) (i : Nat) ps ls,
      outerLoop sc it i L = .ok (ps, ls) →
      ∀ p ∈ ps, containsTraced (writerSegment p) = false := by
  intro L
  induction L with
  | nil =>
    intro i ps ls h p hp
    simp only [outerLoop, Except.ok.injEq, Prod.mk.injEq] at h
    obtain ⟨h1, _⟩ := h
    rw [← h1] at hp
    simp at hp
  | cons hd tl ih =>
    obtain ⟨s, t⟩ := hd
    intro i ps ls h
    simp only [outerLoop] at h
    rcases hin : innerLoop s.name sc it 0 (s.attempts.zip t.attempts)
      with e | ⟨psA, lsA⟩
    · simp [hin] at h
    · simp only [hin] at h
      have hA : ∀ p ∈ psA, containsTraced (writerSegment p) = false :=
        innerLoop_ok_paths s.name sc it (s.attempts.zip t.attempts) 0 psA lsA
          hin
      by_cases hb : brk sc it i = true
      · simp only [hb, if_true, Except.ok.injEq, Prod.mk.injEq] at h
        obtain ⟨h1, _⟩ := h
        subst h1
        exact hA
      · have hb' : brk sc it i = false := by simpa using hb
        simp only [hb', Bool.false_eq_true, if_false] at h
        rcases houter : outerLoop sc it (i + 1) tl with e2 | ⟨ps2, ls2⟩
        · simp [houter] at h
        · simp only [houter, Except.ok.injEq, Prod.mk.injEq] at h
          obtain ⟨h1, _⟩ := h
          subst h1
          intro p hp
          rcases List.mem_append.mp hp with hp1 | hp2
          · exact hA p hp1
          · exact ih (i + 1) ps2 ls2 houter p hp2

/-- Claim C6: a traced (`모사`) writer-attempt is skipped — its loop
iteration contributes exactly nothing — and consequently every resolved
image path of a successful construction carries a non-traced writer segment,
so no traced attempt's paths or labels enter the sample lists. -/
theorem traced_attempts_excluded :
    (∀ (sen : String) (sc it : Bool) (i : Nat) (a : AttemptFolder)
        (b : LabAttempt) (rest : List (AttemptFolder × LabAttempt)),
      containsTraced a.name = true →
      innerLoop sen sc it i ((a, b) :: rest) =
        innerLoop sen sc it (i + 1) rest) ∧
    (∀ (root : RootDir) (it sc : Bool) (ps : List Path) (ls : List String),
      read_paths root it sc = .ok (ps, ls) →
      ∀ p ∈ ps, containsTraced (writerSegment p) = false) := by
  constructor
  · intro sen sc it i a b rest ht
    simp [innerLoop, ht]
  · intro root it sc ps ls h
    unfold read_paths at h
    split at h
    · exact absurd h (by simp)
    · rename_i ps' ls' hout
      split at h
      · cases h
        exact outerLoop_ok_paths sc it _ 0 _ _ hout
      · exact absurd h (by simp)

/-- Witness: C6's theorem at a concrete traced attempt and at the example
corpus. -/
theorem traced_attempts_excluded_witness :
    innerLoop "g1" false true 0
        [(AttemptFolder.mk "모사A" [], LabAttempt.mk "모사A" [] "w"),
          (exAttempt "A1", exLabAttempt "A1" "w1")] =
      innerLoop "g1" false true 1
        [(exAttempt "A1", exLabAttempt "A1" "w1")] ∧
    containsTraced (writerSegment (exResolved.1.getD 0 [])) = false := by
  constructor
  · exact traced_attempts_excluded.1 "g1" false true 0
      (AttemptFolder.mk "모사A" []) (LabAttempt.mk "모사A" [] "w")
      [(exAttempt "A1", exLabAttempt "A1" "w1")] (by decide)
  · exact traced_attempts_excluded.2 exRoot true false exResolved.1
      exResolved.2 rfl (exResolved.1.getD 0 []) (by decide)

/-- A sanity-check inner loop never yields more labels than the full inner
loop on the same attempt list. -/
theorem innerLoop_sanity_le (sen : String) (it : Bool) :
    ∀ (l : List (AttemptFolder × LabAttempt)) (i : Nat) p1 l1 p2 l2,
      innerLoop sen true it i l = .ok (p1, l1) →
      innerLoop sen false it i l = .ok (p2, l2) →
      l1.length ≤ l2.length := by
  intro l
  induction l with
  | nil =>
    intro i p1 l1 p2 l2 h1 h2
    simp only [innerLoop, Except.ok.injEq, Prod.mk.injEq] at h1 h2
    obtain ⟨_, hl1⟩ := h1
    obtain ⟨_, hl2⟩ := h2
    rw [← hl1, ← hl2]
  | cons hd tl ih =>
    obtain ⟨a, b⟩ := hd
    intro i p1 l1 p2 l2 h1 h2
    simp only [innerLoop] at h1 h2
    by_cases ht : containsTraced a.name = true
    · simp only [ht, if_true] at h1 h2
      exact ih (i + 1) p1 l1 p2 l2 h1 h2
    · have ht' : containsTraced a.name = false := by simpa using ht
      simp only [ht', Bool.false_eq_true, if_false] at h1 h2
      rcases hpa : processAttempt sen a b with e | ⟨ps0, ls0⟩
      · simp [hpa] at h1
      · simp only [hpa] at h1 h2
        have hbf : brk false it i = false := by simp [brk]
        simp only [hbf, Bool.false_eq_true, if_false] at h2
        rcases hrest2 : innerLoop sen false it (i + 1) tl
          with e2 | ⟨ps2, ls2⟩
        · simp [hrest2] at h2
        · simp only [hrest2, Except.ok.injEq, Prod.mk.injEq] at h2
          obtain ⟨_, hl2⟩ := h2
          by_cases hb : brk true it i = true
          · simp only [hb, if_true, Except.ok.injEq, Prod.mk.injEq] at h1
            obtain ⟨_, hl1⟩ := h1
            rw [← hl1, ← hl2]
            simp
          · have hb' : brk true it i = false := by simpa using hb
            simp only [hb', Bool.false_eq_true, if_false] at h1
            rcases hrest1 : innerLoop sen true it (i + 1) tl
              with e1 | ⟨ps1, ls1⟩
            · simp [hrest1] at h1
            · simp only [hrest1, Except.ok.injEq, Prod.mk.injEq] at h1
              obtain ⟨_, hl1⟩ := h1
              have hle := ih (i + 1) ps1 ls1 ps2 ls2 hrest1 hrest2
              rw [← hl1, ← hl2]
              simp only [List.length_append]
              omega

/-- A sanity-check outer loop never yields more labels than the full outer
loop on the same sentence list. -/
theorem outerLoop_sanity_le (it : Bool) :
    ∀ (L : List (SentenceFolder × LabSentence)) (i : Nat) p1 l1 p2 l2,
      outerLoop true it i L = .ok (p1, l1) →
      outerLoop false it i L = .ok (p2, l2) →
      l1.length ≤ l2.length := by
  intro L
  induction L with
  | nil =>
    intro i p1 l1 p2 l2 h1 h2
    simp only [outerLoop, Except.ok.injEq, Prod.mk.injEq] at h1 h2
    obtain ⟨_, hl1⟩ := h1
    obtain ⟨_, hl2⟩ := h2
    rw [← hl1, ← hl2]
  | cons hd tl ih =>
    obtain ⟨s, t⟩ := hd
    intro i p1 l1 p2 l2 h1 h2
    simp only [outerLoop] at h1 h2
    rcases hin1 : innerLoop s.name true it 0 (s.attempts.zip t.attempts)
      with e | ⟨psA, lsA⟩
    · simp [hin1] at h1
    rcases hin2 : innerLoop s.name false it 0 (s.attempts.zip t.attempts)
      with e | ⟨psB, lsB⟩
    · simp [hin2] at h2
    simp only [hin1] at h1
    simp only [hin2] at h2
    have hAB : lsA.length ≤ lsB.length :=
      innerLoop_sanity_le s.name it (s.attempts.zip t.attempts) 0 psA lsA
        psB lsB hin1 hin2
    have hbf : brk false it i = false := by simp [brk]
    simp only [hbf, Bool.false_eq_true, if_false] at h2
    rcases houter2 : outerLoop false it (i + 1) tl with e2 | ⟨ps2, ls2⟩
    · simp [houter2] at h2
    simp only [houter2, Except.ok.injEq, Prod.mk.injEq] at h2
    obtain ⟨_, hl2⟩ := h2
    by_cases hb : brk true it i = true
    · simp only [hb, if_true, Except.ok.injEq, Prod.mk.injEq] at h1
      obtain ⟨_, hl1⟩ := h1
      rw [← hl1, ← hl2]
      simp only [List.length_append]
      omega
    · have hb' : brk true it i = false := by simpa using hb
      simp only [hb', Bool.false_eq_true, if_false] at h1
      rcases houter1 : outerLoop true it (i + 1) tl with e1 | ⟨ps1, ls1⟩
      · simp [houter1] at h1
      simp only [houter1, Except.ok.injEq, Prod.mk.injEq] at h1
      obtain ⟨_, hl1⟩ := h1
      have hle := ih (i + 1) ps1 ls1 ps2 ls2 houter1 houter2
      rw [← hl1, ← hl2]
      simp only [List.length_append]
      omega

/-- Claim C3, amended: on a root where both modes succeed, sanity-check mode
resolves at most as many samples as full mode — not strictly fewer; the
cut-offs (`i_tf == 3`, `i_sen == 3` when training) are only reached on
sufficiently large corpora, so small corpora (such as the 2×2×3 example,
which yields exactly 12 in both modes) are not truncated at all. -/
theorem sanity_check_count_le (root : RootDir) (it : Bool)
    (p1 : List Path) (l1 : List String) (p2 : List Path) (l2 : List String)
    (h1 : read_paths root it true = .ok (p1, l1))
    (h2 : read_paths root it false = .ok (p2, l2)) :
    l1.length ≤ l2.length ∧ p1.length ≤ p2.length := by
  unfold read_paths at h1 h2
  split at h1
  · exact absurd h1 (by simp)
  · rename_i psA lsA houtA
    split at h1
    · rename_i hlenA
      cases h1
      split at h2
      · exact absurd h2 (by simp)
      · rename_i psB lsB houtB
        split at h2
        · rename_i hlenB
          cases h2
          have hle := outerLoop_sanity_le it _ 0 _ _ _ _ houtA houtB
          exact ⟨hle, by omega⟩
        · exact absurd h2 (by simp)
    · exact absurd h1 (by simp)

/-- Witness: C3's amended theorem on the example corpus, where both modes
resolve the same lists. -/
theorem sanity_check_count_le_witness :
    read_paths exRoot true true = .ok (exResolved.1, exResolved.2) ∧
    read_paths exRoot true false = .ok (exResolved.1, exResolved.2) ∧
    (exResolved.2.length ≤ exResolved.2.length ∧
      exResolved.1.length ≤ exResolved.1.length) := by
  refine ⟨rfl, rfl, ?_⟩
  exact sanity_check_count_le exRoot true exResolved.1 exResolved.2
    exResolved.1 exResolved.2 rfl rfl

/-- Counterexample to claim C3 as stated: on the root with 2 sentence
groups, 2 non-traced writer-attempts and 3 variant sub-subfolders each, the
sanity-check cut-off indices are never reached, so `sanity_check=True` with
`is_train=True` resolves exactly 12 samples — equal to, not strictly less
than, the 12 of full mode. -/
theorem sanity_check_not_strict_cex :
    labelCount exRoot true true = some 12 ∧
    labelCount exRoot true false = some 12 := ⟨rfl, rfl⟩

end TwinNets
